import Mathlib

/-!
Verification of the picobot tool layer (picobot/tools.py) and skill registry
(picobot/skills.py) against its natural-language specification.

The Python code is shallowly embedded: paths are modelled as already-resolved
opaque string keys, the filesystem as a partial map from path to node, the
shell and the outbox append as explicit outcome parameters.  Python string
primitives (strip, lower, count, replace, text-mode universal-newline
decoding) are modelled for ASCII text; Python's unicode-aware variants
coincide with these on ASCII input.  The host platform is modelled as Linux
(os.linesep is a single newline), so text-mode writing stores the string
unchanged and text-mode reading applies universal-newline translation.
-/

set_option maxHeartbeats 1000000

namespace Picobot

/-! ## Python string primitives -/

/-- Python `str.isspace` for the ASCII whitespace characters, the set matched
by the regex class backslash-s. -/
def pyIsSpace (c : Char) : Bool :=
  c = ' ' || c = '\t' || c = '\n' || c = '\r' || c = '\x0b' || c = '\x0c'

def pyStripChars (l : List Char) : List Char :=
  ((l.dropWhile pyIsSpace).reverse.dropWhile pyIsSpace).reverse

/-- Python `str.strip()` (no argument): whitespace removed from both ends. -/
def pyStrip (s : String) : String := String.mk (pyStripChars s.data)

/-- Python `str.lower()` (ASCII model). -/
def strLower (s : String) : String := String.mk (s.data.map Char.toLower)

/-- Does the second list start with the first? -/
def leadsWith : List Char → List Char → Bool
  | [], _ => true
  | _ :: _, [] => false
  | a :: as, b :: bs => a = b && leadsWith as bs

/-- Helper for `pyCount`: number of non-overlapping occurrences of the
pattern (split into first char and rest) in the list, scanning left to
right and skipping over each match, exactly as `str.count` does.  The fuel
argument (any value at least the list length) only forces structural
recursion; each step consumes at least one character. -/
def countFromF (p : Char) (ps : List Char) : Nat → List Char → Nat
  | 0, _ => 0
  | _ + 1, [] => 0
  | fuel + 1, c :: rest =>
    if p = c && leadsWith ps rest then countFromF p ps fuel (rest.drop ps.length) + 1
    else countFromF p ps fuel rest

/-- Python `s.count(pat)`: non-overlapping occurrences; an empty pattern is
counted `len(s) + 1` times. -/
def pyCount (s pat : String) : Nat :=
  match pat.data with
  | [] => s.data.length + 1
  | p :: ps => countFromF p ps s.data.length s.data

/-- Helper for `pyReplace1`: replace the leftmost occurrence only. -/
def replace1 (p : Char) (ps rep : List Char) : List Char → List Char
  | [] => []
  | c :: rest =>
    if p = c && leadsWith ps rest then rep ++ rest.drop ps.length
    else c :: replace1 p ps rep rest

/-- Python `s.replace(old, new, 1)`. -/
def pyReplace1 (s old new : String) : String :=
  match old.data with
  | [] => String.mk (new.data ++ s.data)
  | p :: ps => String.mk (replace1 p ps new.data s.data)

/-- Helper for `pyReplaceAll`: replace every non-overlapping occurrence,
scanning left to right (fuel as in `countFromF`). -/
def replaceFromF (p : Char) (ps rep : List Char) : Nat → List Char → List Char
  | 0, l => l
  | _ + 1, [] => []
  | fuel + 1, c :: rest =>
    if p = c && leadsWith ps rest then rep ++ replaceFromF p ps rep fuel (rest.drop ps.length)
    else c :: replaceFromF p ps rep fuel rest

/-- Python `s.replace(old, new)` (all occurrences). -/
def pyReplaceAll (s old new : String) : String :=
  match old.data with
  | [] => String.mk (new.data ++ s.data.flatMap (fun c => c :: new.data))
  | p :: ps => String.mk (replaceFromF p ps new.data s.data.length s.data)

/-- Universal-newline translation performed by CPython text-mode reading with
`newline=None`: CR LF and lone CR both decode to LF. -/
def univNlChars : List Char → List Char
  | [] => []
  | [c] => [if c = '\r' then '\n' else c]
  | c :: d :: rest =>
    if c = '\r' then
      if d = '\n' then '\n' :: univNlChars rest
      else '\n' :: univNlChars (d :: rest)
    else c :: univNlChars (d :: rest)

def univNl (s : String) : String := String.mk (univNlChars s.data)

/-- Python `s.startswith(pre)`. -/
def strStarts (s pre : String) : Bool := leadsWith pre.data s.data

/-- Membership in the strip set of `value.strip("\"'")`. -/
def isQuoteChar (c : Char) : Bool := c.toNat = 34 || c.toNat = 39

/-- Python `s.strip("\"'")`: double and single quotes removed from both ends. -/
def stripQuotes (s : String) : String :=
  String.mk (((s.data.dropWhile isQuoteChar).reverse.dropWhile isQuoteChar).reverse)

/-- Number of bytes in the UTF-8 encoding of one scalar value. -/
def charUtf8Len (c : Char) : Nat :=
  if c.toNat < 128 then 1
  else if c.toNat < 2048 then 2
  else if c.toNat < 65536 then 3
  else 4

/-- Number of bytes in the UTF-8 encoding of a string. -/
def utf8Len (s : String) : Nat := (s.data.map charUtf8Len).sum

/-! ## Regular expressions

A small backtracking engine, just expressive enough for the eight deny
patterns of tools.py: literals, one-character classes, starred classes,
word boundaries, sequencing and alternation.  The matcher threads the
previous character so that word boundaries can be decided. -/

/-- The regex class backslash-w (ASCII model, as in the commands at issue). -/
def reIsWord (c : Char) : Bool := c.isAlphanum || c = '_'

inductive Rx where
  | eps
  | lit (cs : List Char)
  | cls (f : Char → Bool)
  | clsStar (f : Char → Bool)
  | wordB
  | seq (a b : Rx)
  | alt (a b : Rx)

/-- Match a literal; on success return the new previous-character and rest. -/
def litStep : List Char → Option Char → List Char → List (Option Char × List Char)
  | [], prev, s => [(prev, s)]
  | _ :: _, _, [] => []
  | c :: cs, _, d :: rest => if c = d then litStep cs (some d) rest else []

/-- All ways a starred class can consume a satisfying run. -/
def starSplits (f : Char → Bool) (prev : Option Char) : List Char → List (Option Char × List Char)
  | [] => [(prev, [])]
  | c :: rest => (prev, c :: rest) :: (if f c then starSplits f (some c) rest else [])

/-- Is there a word boundary between the previous character and the rest? -/
def atBoundary (prev : Option Char) (s : List Char) : Bool :=
  let pw := match prev with | some c => reIsWord c | none => false
  let nw := match s with | c :: _ => reIsWord c | [] => false
  pw != nw

/-- Backtracking matcher: every (previous char, remaining input) state
reachable after the regex consumes a prefix of the input. -/
def rxMatch : Rx → Option Char → List Char → List (Option Char × List Char)
  | Rx.eps, prev, s => [(prev, s)]
  | Rx.lit cs, prev, s => litStep cs prev s
  | Rx.cls _, _, [] => []
  | Rx.cls f, _, c :: rest => if f c then [(some c, rest)] else []
  | Rx.clsStar f, prev, s => starSplits f prev s
  | Rx.wordB, prev, s => if atBoundary prev s then [(prev, s)] else []
  | Rx.seq a b, prev, s => (rxMatch a prev s).flatMap (fun pr => rxMatch b pr.1 pr.2)
  | Rx.alt a b, prev, s => rxMatch a prev s ++ rxMatch b prev s

/-- Search part of `re.search`: try a match at every start position. -/
def rxSearchFrom (r : Rx) : Option Char → List Char → Bool
  | prev, [] => !(rxMatch r prev []).isEmpty
  | prev, c :: rest => !(rxMatch r prev (c :: rest)).isEmpty || rxSearchFrom r (some c) rest

/-- Python `re.search(r, s) is not None`. -/
def reSearch (r : Rx) (s : String) : Bool := rxSearchFrom r none s.data

def rxStr (s : String) : Rx := Rx.lit s.data

def rxSeqs : List Rx → Rx
  | [] => Rx.eps
  | [r] => r
  | r :: rs => Rx.seq r (rxSeqs rs)

/-- The regex operator + on a character class. -/
def rxPlus (f : Char → Bool) : Rx := Rx.seq (Rx.cls f) (Rx.clsStar f)

/-- The regex repetition operator with bounds 1 and 2 on a character class. -/
def rx12 (f : Char → Bool) : Rx := Rx.seq (Rx.cls f) (Rx.alt Rx.eps (Rx.cls f))

/-! ## The deny patterns of tools.py, in order -/

def denyRm : Rx :=
  rxSeqs [Rx.wordB, rxStr "rm", rxPlus pyIsSpace, rxStr "-",
          rx12 (fun c => c = 'r' || c = 'f'), Rx.wordB]

def denyDel : Rx :=
  rxSeqs [Rx.wordB, rxStr "del", rxPlus pyIsSpace, rxStr "/",
          Rx.cls (fun c => c = 'f' || c = 'q'), Rx.wordB]

def denyRmdir : Rx :=
  rxSeqs [Rx.wordB, rxStr "rmdir", rxPlus pyIsSpace, rxStr "/s", Rx.wordB]

def denyFormat : Rx :=
  rxSeqs [Rx.wordB, Rx.alt (rxStr "format") (Rx.alt (rxStr "mkfs") (rxStr "diskpart")),
          Rx.wordB]

def denyDd : Rx := rxSeqs [Rx.wordB, rxStr "dd", rxPlus pyIsSpace, rxStr "if="]

def denyDevWrite : Rx := rxSeqs [rxStr ">", Rx.clsStar pyIsSpace, rxStr "/dev/sd"]

def denyShutdown : Rx :=
  rxSeqs [Rx.wordB, Rx.alt (rxStr "shutdown") (Rx.alt (rxStr "reboot") (rxStr "poweroff")),
          Rx.wordB]

def denyForkBomb : Rx :=
  rxSeqs [rxStr ":()", Rx.clsStar pyIsSpace, rxStr "\x7b",
          Rx.clsStar (fun c => !(c = '\n')), rxStr "\x7d;", Rx.clsStar pyIsSpace, rxStr ":"]

def DENY_PATTERNS : List Rx :=
  [denyRm, denyDel, denyRmdir, denyFormat, denyDd, denyDevWrite, denyShutdown, denyForkBomb]

/-- The guard of `exec_command`: some deny pattern matches the lower-cased,
stripped command. -/
def deniedCommand (command : String) : Bool :=
  DENY_PATTERNS.any (fun p => reSearch p (strLower (pyStrip command)))

/-! ## exec_command -/

structure ShellResult where
  stdout : String
  stderr : String
  returncode : Int
deriving DecidableEq

/-- Outcome of `subprocess.run`: normal completion, `TimeoutExpired`, or any
other exception (carrying its rendered message). -/
inductive ShellOutcome where
  | completed (r : ShellResult)
  | timedOut
  | failed (msg : String)
deriving DecidableEq

def execParts (r : ShellResult) : List String :=
  (if r.stdout ≠ "" then [r.stdout] else []) ++
  (if r.stderr ≠ "" then ["STDERR:\n" ++ r.stderr] else []) ++
  (if r.returncode ≠ 0 then ["Exit code: " ++ toString r.returncode] else [])

def truncateAt (limit : Nat) (s : String) : String :=
  if s.length > limit then
    String.mk (s.data.take limit) ++ "\n... (truncated, " ++
      Nat.repr (s.length - limit) ++ " more chars)"
  else s

def composeExec (r : ShellResult) : String :=
  let joined := pyStrip (String.intercalate "\n" (execParts r))
  let base := if joined = "" then "(no output)" else joined
  truncateAt 12000 base

/-- Model of `exec_command`.  The shell itself is an oracle mapping the
(stripped) command to its outcome; the boolean records whether a subprocess
was started at all. -/
def exec_command (shell : String → ShellOutcome) (command : String) (timeout : Nat) :
    String × Bool :=
  let cmd := pyStrip command
  if DENY_PATTERNS.any (fun p => reSearch p (strLower cmd)) then
    ("Error: Command blocked by safety guard (dangerous pattern detected)", false)
  else
    match shell cmd with
    | ShellOutcome.timedOut =>
        ("Error: Command timed out after " ++ Nat.repr timeout ++ " seconds", true)
    | ShellOutcome.failed m => ("Error executing command: " ++ m, true)
    | ShellOutcome.completed r => (composeExec r, true)

/-! ## Filesystem model and the file tools

Paths are opaque, already-resolved keys; a node is a regular file with
stored text or a directory.  Parent-directory creation always succeeds in
the model (paths are not hierarchical here). -/

inductive Node where
  | file (content : String)
  | dir
deriving DecidableEq

abbrev FS := String → Option Node

def fsUpdate (fs : FS) (p : String) (n : Node) : FS :=
  fun q => if q = p then some n else fs q

def emptyFS : FS := fun _ => none

/-- Model of `read_file`: `read_text` decodes in text mode, so universal
newlines are applied to the stored content. -/
def read_file (fs : FS) (path : String) : String :=
  match fs path with
  | none => "Error: File not found: " ++ path
  | some Node.dir => "Error: Not a file: " ++ path
  | some (Node.file stored) => univNl stored

/-- Model of `write_file`: overwrites the node; writing to an existing
directory raises IsADirectoryError, caught and rendered as an error string.
The success message interpolates `len(content)` — the code-point count. -/
def write_file (fs : FS) (path content : String) : FS × String :=
  match fs path with
  | some Node.dir => (fs, "Error writing file: Is a directory: " ++ path)
  | _ => (fsUpdate fs path (Node.file content),
          "Successfully wrote " ++ Nat.repr content.length ++ " bytes to " ++ path)

/-- Model of `edit_file`: counts occurrences of `old_text` in the decoded
content; zero is an error, more than one a warning (no write), exactly one
replaces the first occurrence and persists. -/
def edit_file (fs : FS) (path old_text new_text : String) : FS × String :=
  match fs path with
  | none => (fs, "Error: File not found: " ++ path)
  | some Node.dir => (fs, "Error: Not a file: " ++ path)
  | some (Node.file stored) =>
    let content := univNl stored
    let count := pyCount content old_text
    if count = 0 then
      (fs, "Error: old_text not found in file. Make sure it matches exactly.")
    else if count > 1 then
      (fs, "Warning: old_text appears " ++ Nat.repr count ++
           " times. Please provide more context to make it unique.")
    else
      (fsUpdate fs path (Node.file (pyReplace1 content old_text new_text)),
       "Successfully edited " ++ path)

/-! ## Skill registry model

A skills root is its directory path plus the immediate children found on
disk; each child records whether it is a directory and, if a file named
SKILL.md exists inside it, that file's text. -/

structure DirEntry where
  name : String
  isDir : Bool
  manifest : Option String
deriving DecidableEq

structure SkillsRoot where
  path : String
  entries : List DirEntry
deriving DecidableEq

/-- The SkillInfo dataclass has fields name, path, source, description; the
extra `content` field records the text that `read_text` on `path` returns,
standing in for the filesystem at `read_skill` time. -/
structure SkillInfo where
  name : String
  path : String
  source : String
  description : String
  content : String
deriving DecidableEq

/-- Split a list at the first occurrence of the pattern (first char plus
rest): returns the part before the match and the part after it. -/
def splitFirst (p : Char) (ps : List Char) : List Char → Option (List Char × List Char)
  | [] => none
  | c :: rest =>
    if p = c && leadsWith ps rest then some ([], rest.drop ps.length)
    else match splitFirst p ps rest with
         | some pr => some (c :: pr.1, pr.2)
         | none => none

/-- Python `s.split("\n")`. -/
def splitNl : List Char → List (List Char)
  | [] => [[]]
  | c :: rest =>
    if c = '\n' then [] :: splitNl rest
    else match splitNl rest with
         | l :: ls => (c :: l) :: ls
         | [] => [[c]]

/-- One iteration of the description-extraction loop: if the stripped line
starts with "description:", split the raw line at its first colon and
return the stripped, quote-stripped value. -/
def descOfLine (line : List Char) : Option String :=
  if strStarts (pyStrip (String.mk line)) "description:" then
    match splitFirst ':' [] line with
    | some pr => some (stripQuotes (pyStrip (String.mk pr.2)))
    | none => none
  else none

/-- Model of `_extract_description`: a front-matter block delimited by
three dashes at the very start (non-greedy, DOTALL), searched for a
description line. -/
def _extract_description (m : String) : Option String :=
  if strStarts m "---" then
    match m.data with
    | '-' :: '-' :: '-' :: '\n' :: rest =>
      match splitFirst '\n' ['-', '-', '-'] rest with
      | some pr => ((splitNl pr.1).filterMap descOfLine).head?
      | none => none
    | _ => none
  else none

/-- The loop body of `SkillRegistry._scan` for one directory child: a
subdirectory containing a SKILL.md file yields a SkillInfo; a falsy (absent
or empty) description falls back to the directory name. -/
def scanEntry (rootPath source : String) (child : DirEntry) : Option SkillInfo :=
  if child.isDir then
    match child.manifest with
    | some m =>
      let d := match _extract_description m with
        | some dsc => if dsc = "" then child.name else dsc
        | none => child.name
      some { name := child.name,
             path := rootPath ++ "/" ++ child.name ++ "/SKILL.md",
             source := source, description := d, content := m }
    | none => none
  else none

/-- Model of `SkillRegistry._scan`. -/
def _scan (rootPath : String) (entries : List DirEntry) (source : String) : List SkillInfo :=
  entries.filterMap (scanEntry rootPath source)

/-- Insertion-ordered dictionary, as Python's dict: a key list without
duplicates; assigning to a present key replaces the value in place. -/
abbrev Dict := List (String × SkillInfo)

def dictKeys (d : Dict) : List String := d.map Prod.fst

def dictSet (d : Dict) (k : String) (v : SkillInfo) : Dict :=
  if k ∈ dictKeys d then
    d.map (fun kv => if kv.1 = k then (k, v) else kv)
  else d ++ [(k, v)]

/-- Python string comparison (code-point lexicographic, as a Bool). -/
def lexLe : List Char → List Char → Bool
  | [], _ => true
  | _ :: _, [] => false
  | a :: as, b :: bs =>
    if a.toNat < b.toNat then true
    else if b.toNat < a.toNat then false
    else lexLe as bs

/-- The sort key comparison of `list_skills`: lower-cased names. -/
def skillLe (a b : SkillInfo) : Bool := lexLe (strLower a.name).data (strLower b.name).data

/-- Insert with the strict part of `skillLe`, keeping ties in input order. -/
def insertByKey (x : SkillInfo) : List SkillInfo → List SkillInfo
  | [] => [x]
  | y :: ys => if skillLe y x && !skillLe x y then y :: insertByKey x ys else x :: y :: ys

/-- Stable insertion sort.  Python's `sorted` is a stable sort and the
stable sorted permutation under a total preorder is unique, so this models
`sorted(..., key=lambda item: item.name.lower())` exactly. -/
def sortSkills (l : List SkillInfo) : List SkillInfo := l.foldr insertByKey []

/-- The `discovered` dict after the workspace scan loop of `list_skills`. -/
def wsDict (W : List SkillInfo) : Dict :=
  W.foldl (fun d i => dictSet d i.name i) []

/-- The `discovered` dict after the builtin scan loop: entries are added
only when the name is not already present. -/
def mergedDict (W B : List SkillInfo) : Dict :=
  B.foldl (fun d i => if i.name ∈ dictKeys d then d else d ++ [(i.name, i)]) (wsDict W)

/-- Model of `SkillRegistry.list_skills`: scan the workspace root into the
dict, add builtin entries only under fresh names, then sort the values
case-insensitively by name. -/
def list_skills (ws bi : SkillsRoot) : List SkillInfo :=
  sortSkills ((mergedDict (_scan ws.path ws.entries "workspace")
    (_scan bi.path bi.entries "builtin")).map Prod.snd)

/-- Model of `SkillRegistry.read_skill`: a raised ValueError is an `error`
value.  The lookup key is the stripped name; the first listed skill whose
name equals the key is read. -/
def read_skill (ws bi : SkillsRoot) (name : String) : Except String String :=
  let key := pyStrip name
  if key = "" then Except.error "Skill name cannot be empty."
  else
    match (list_skills ws bi).find? (fun i => i.name == key) with
    | some info => Except.ok info.content
    | none => Except.error ("Skill '" ++ key ++ "' not found.")

/-- Model of `_xml_escape`: three sequential global replaces. -/
def _xml_escape (text : String) : String :=
  pyReplaceAll (pyReplaceAll (pyReplaceAll text "&" "&amp;") "<" "&lt;") ">" "&gt;"

/-- Model of `SkillRegistry.build_summary`. -/
def build_summary (ws bi : SkillsRoot) : String :=
  let lines := ["<skills>"] ++
    (list_skills ws bi).flatMap (fun info =>
      ["  <skill>",
       "    <name>" ++ _xml_escape info.name ++ "</name>",
       "    <description>" ++ _xml_escape info.description ++ "</description>",
       "    <source>" ++ info.source ++ "</source>",
       "    <location>" ++ _xml_escape info.path ++ "</location>",
       "  </skill>"]) ++ ["</skills>"]
  String.intercalate "\n" lines

/-- The escaping the spec describes, stated character by character: exactly
the ampersand, less-than and greater-than characters are expanded to their
entity forms and every other character is left unchanged. -/
def xmlEscChar (c : Char) : List Char :=
  if c = '&' then "&amp;".data
  else if c = '<' then "&lt;".data
  else if c = '>' then "&gt;".data
  else [c]

def xmlEscapeSpec (s : String) : String := String.mk (s.data.flatMap xmlEscChar)

/-! ## Cron job store -/

structure CronJob where
  id : String
  name : String
  message : String
  schedule : String
  created_at : String
deriving DecidableEq

/-- Persisted store file: missing, unparseable (loads as the empty list), or
a well-formed list of job records. -/
inductive CronStore where
  | absent
  | corrupt (raw : String)
  | stored (jobs : List CronJob)
deriving DecidableEq

def _load_cron_jobs : CronStore → List CronJob
  | CronStore.stored l => l
  | _ => []

/-- Python truthiness of an optional string argument. -/
def truthyStr : Option String → Bool
  | none => false
  | some s => s ≠ ""

/-- Python truthiness of an optional integer argument. -/
def truthyInt : Option Int → Bool
  | none => false
  | some n => n ≠ 0

def cronListLines (jobs : List CronJob) : String :=
  String.intercalate "\n"
    ("Scheduled jobs:" ::
      jobs.map (fun j => "- " ++ j.name ++ " (id: " ++ j.id ++ ", " ++ j.schedule ++ ")"))

/-- Model of the `cron` tool.  `nowTs` stands for the current timestamp and
`freshId` for the first eight hex digits of a fresh uuid4. -/
def cron (store : CronStore) (nowTs freshId : String) (action msg : String)
    (every_seconds : Option Int) (cron_expr at_arg job_id : Option String) :
    CronStore × String :=
  let jobs := _load_cron_jobs store
  if action = "list" then
    if jobs.isEmpty then (store, "No scheduled jobs.")
    else (store, cronListLines jobs)
  else if action = "remove" then
    if !truthyStr job_id then (store, "Error: job_id is required for remove")
    else
      let jid := job_id.getD ""
      let kept := jobs.filter (fun j => !(j.id == jid))
      if kept.length = jobs.length then (store, "Job " ++ jid ++ " not found")
      else (CronStore.stored kept, "Removed job " ++ jid)
  else if action = "add" then
    if msg = "" then (store, "Error: message is required for add")
    else
      let schedule :=
        if truthyInt every_seconds then
          some ("every:" ++ toString (every_seconds.getD 0) ++ "s")
        else if truthyStr cron_expr then some ("cron:" ++ cron_expr.getD "")
        else if truthyStr at_arg then some ("at:" ++ at_arg.getD "")
        else none
      match schedule with
      | none => (store, "Error: either every_seconds, cron_expr, or at is required")
      | some sch =>
        let newJob : CronJob :=
          { id := freshId, name := String.mk (msg.data.take 30), message := msg,
            schedule := sch, created_at := nowTs }
        (CronStore.stored (jobs ++ [newJob]),
         "Created job '" ++ newJob.name ++ "' (id: " ++ newJob.id ++ ")")
  else (store, "Unknown action: " ++ action)

/-! ## Outbox message tool -/

/-- One hex digit as json.dumps renders it (lowercase). -/
def jsonHexDigit (n : Nat) : Char :=
  if n < 10 then Char.ofNat (48 + n) else Char.ofNat (87 + n)

/-- json.dumps string escaping with ensure_ascii false. -/
def jsonEscChar (c : Char) : List Char :=
  if c = '"' then ['\\', '"']
  else if c = '\\' then ['\\', '\\']
  else if c = '\n' then ['\\', 'n']
  else if c = '\r' then ['\\', 'r']
  else if c = '\t' then ['\\', 't']
  else if c.toNat = 8 then ['\\', 'b']
  else if c.toNat = 12 then ['\\', 'f']
  else if c.toNat < 32 then
    ['\\', 'u', '0', '0', jsonHexDigit (c.toNat / 16), jsonHexDigit (c.toNat % 16)]
  else [c]

def jsonStr (s : String) : String :=
  "\"" ++ String.mk (s.data.flatMap jsonEscChar) ++ "\""

/-- The JSON line appended to the outbox log (dict insertion order). -/
def outboxLine (ts channel chat_id content : String) : String :=
  "\x7b\"timestamp\": " ++ jsonStr ts ++ ", \"channel\": " ++ jsonStr channel ++
  ", \"chat_id\": " ++ jsonStr chat_id ++ ", \"content\": " ++ jsonStr content ++ "\x7d"

def outboxPath (workspaceRoot : String) : String :=
  workspaceRoot ++ "/messages/outbox.log"

/-- Model of the `message` tool.  The source has no try/except: the outbox
log is the list of lines already in the file, `fsOutcome` is the outcome of
the directory creation plus append (an `error` is a raised OSError), and a
raised exception propagates to the caller unchanged. -/
def message (workspaceRoot : String) (log : List String) (fsOutcome : Except String Unit)
    (ts content channel chat_id : String) : Except String (List String × String) :=
  match fsOutcome with
  | Except.error e => Except.error e
  | Except.ok _ =>
      Except.ok (log ++ [outboxLine ts channel chat_id content],
                 "Message recorded to " ++ outboxPath workspaceRoot)

/-! ## Concrete fixtures used by witnesses and counterexamples -/

/-- A shell in which every command prints hello. -/
def shellEcho : String → ShellOutcome :=
  fun _ => ShellOutcome.completed ⟨"hello\n", "", 0⟩

/-- A filesystem holding a single file "f" with content "abab". -/
def fsAB : FS := fun q => if q = "f" then some (Node.file "abab") else none

/-- A workspace skills root with one skill directory "foo". -/
def ws0 : SkillsRoot := ⟨"/ws", [⟨"foo", true, some "hello"⟩]⟩

def bi0 : SkillsRoot := ⟨"/bi", []⟩

/-- A pair of roots both holding a valid bundle named "dup". -/
def wsB : SkillsRoot := ⟨"/ws", [⟨"dup", true, some "w"⟩]⟩

def biB : SkillsRoot := ⟨"/bi", [⟨"dup", true, some "b"⟩]⟩

/-- A cron store holding one job with id "a1". -/
def store1 : CronStore := CronStore.stored [⟨"a1", "n", "m", "s", "t"⟩]

/-! ## Helper lemmas -/

theorem univNlChars_eq_self (l : List Char) (h : ∀ ch ∈ l, ch ≠ '\r') :
    univNlChars l = l := by
  induction l with
  | nil => rfl
  | cons c rest ih =>
    have hc : c ≠ '\r' := h c (by simp)
    have hr : ∀ ch ∈ rest, ch ≠ '\r' := fun ch hm => h ch (by simp [hm])
    cases rest with
    | nil => simp [univNlChars, hc]
    | cons d rest2 => simp [univNlChars, hc, ih hr]

theorem univNl_eq_self (s : String) (h : ∀ ch ∈ s.data, ch ≠ '\r') : univNl s = s := by
  unfold univNl
  rw [univNlChars_eq_self s.data h]

theorem utf8Len_ascii_chars (l : List Char) (h : ∀ ch ∈ l, ch.toNat < 128) :
    (l.map charUtf8Len).sum = l.length := by
  induction l with
  | nil => rfl
  | cons c rest ih =>
    have hc : charUtf8Len c = 1 := by unfold charUtf8Len; rw [if_pos (h c (by simp))]
    simp only [List.map_cons, List.sum_cons, hc, List.length_cons,
      ih (fun ch hm => h ch (by simp [hm]))]
    omega

theorem replaceFromF_single (p : Char) (rep : List Char) (l : List Char) :
    ∀ fuel, l.length ≤ fuel →
      replaceFromF p [] rep fuel l = l.flatMap (fun d => if p = d then rep else [d]) := by
  induction l with
  | nil => intro fuel _; cases fuel <;> rfl
  | cons c rest ih =>
    intro fuel hf
    cases fuel with
    | zero => simp at hf
    | succ f =>
      have hr : rest.length ≤ f := by simpa using hf
      by_cases hc : p = c
      · subst hc
        simp [replaceFromF, leadsWith, ih f hr]
      · simp [replaceFromF, leadsWith, hc, ih f hr]

theorem flatMap_flatMap {α β γ : Type} (l : List α) (f : α → List β) (g : β → List γ) :
    (l.flatMap f).flatMap g = l.flatMap (fun a => (f a).flatMap g) := by
  induction l with
  | nil => rfl
  | cons a l ih => simp [List.flatMap_cons, List.flatMap_append, ih]

theorem xmlEscChar_decomp (c : Char) :
    (if '&' = c then "&amp;".data else [c]).flatMap
      (fun a => (if '<' = a then "&lt;".data else [a]).flatMap
        (fun d => if '>' = d then "&gt;".data else [d])) = xmlEscChar c := by
  by_cases h1 : '&' = c
  · rw [← h1]; decide
  · by_cases h2 : '<' = c
    · rw [← h2]; decide
    · by_cases h3 : '>' = c
      · rw [← h3]; decide
      · have g1 : c ≠ '&' := fun hh => h1 hh.symm
        have g2 : c ≠ '<' := fun hh => h2 hh.symm
        have g3 : c ≠ '>' := fun hh => h3 hh.symm
        simp [xmlEscChar, h1, h2, h3, g1, g2, g3]

theorem filter_ne_eq_erase (j : CronJob) (jid : String) (hid : j.id = jid) :
    ∀ l : List CronJob, j ∈ l → (l.map CronJob.id).Nodup →
      l.filter (fun x => !(x.id == jid)) = l.erase j := by
  intro l
  induction l with
  | nil => intro hmem _; cases hmem
  | cons a l ih =>
    intro hmem hnd
    have hnd2 : (l.map CronJob.id).Nodup := (List.nodup_cons.mp (by simpa using hnd)).2
    have hhead : a.id ∉ l.map CronJob.id := (List.nodup_cons.mp (by simpa using hnd)).1
    rcases List.mem_cons.mp hmem with heq | hm
    · subst heq
      rw [List.filter_cons, List.erase_cons_head]
      have hdrop : (!(j.id == jid)) = false := by simp [hid]
      simp only [hdrop, Bool.false_eq_true, if_false]
      apply List.filter_eq_self.mpr
      intro x hx
      have hxid : x.id ≠ jid := by
        intro he
        exact hhead (hid ▸ (he ▸ List.mem_map.mpr ⟨x, hx, rfl⟩))
      simp [hxid]
    · have haid : a.id ≠ jid := by
        intro he
        exact hhead (by rw [he, ← hid]; exact List.mem_map.mpr ⟨j, hm, rfl⟩)
      have haj : (a == j) = false := by
        apply beq_eq_false_iff_ne.mpr
        intro he
        exact hhead (he ▸ List.mem_map.mpr ⟨j, hm, rfl⟩)
      rw [List.filter_cons, List.erase_cons]
      simp only [haj, Bool.false_eq_true, if_false, haid, bne_iff_ne, ne_eq,
        not_false_eq_true, if_pos]
      simp only [haid, beq_eq_false_iff_ne.mpr haid, Bool.not_false, if_pos]
      exact congrArg (a :: ·) (ih hm hnd2)

/-! ## Claim theorems -/

/-- C1: a command matching a deny pattern (after stripping and lower-casing)
is answered with the safety-block error and no subprocess is started, for
every shell; "rm -rf /" is such a command; "echo hello" matches no pattern,
is executed, and its stdout appears in the result. -/
theorem exec_safety_guard :
    (∀ (shell : String → ShellOutcome) (cmd : String) (t : Nat),
        deniedCommand cmd = true →
        exec_command shell cmd t =
          ("Error: Command blocked by safety guard (dangerous pattern detected)", false)) ∧
    deniedCommand "rm -rf /" = true ∧
    deniedCommand "echo hello" = false ∧
    (∀ (shell : String → ShellOutcome) (t : Nat),
        shell "echo hello" = ShellOutcome.completed ⟨"hello\n", "", 0⟩ →
        exec_command shell "echo hello" t = ("hello", true) ∧
        "hello".data <:+: (exec_command shell "echo hello" t).1.data) := by
  refine ⟨?_, by decide, by decide, ?_⟩
  · intro shell cmd t hd
    unfold deniedCommand at hd
    simp [exec_command, hd]
  · intro shell t hsh
    have hstep : exec_command shell "echo hello" t = (composeExec ⟨"hello\n", "", 0⟩, true) := by
      have hm : exec_command shell "echo hello" t =
          (match shell "echo hello" with
           | ShellOutcome.timedOut =>
               ("Error: Command timed out after " ++ Nat.repr t ++ " seconds", true)
           | ShellOutcome.failed m => ("Error executing command: " ++ m, true)
           | ShellOutcome.completed r => (composeExec r, true)) := rfl
      rw [hm, hsh]
    have hcomp : composeExec ⟨"hello\n", "", 0⟩ = "hello" := by decide
    rw [hstep, hcomp]
    exact ⟨rfl, ⟨[], [], by simp⟩⟩

theorem exec_safety_guard_witness :
    exec_command shellEcho "rm -rf /" 60 =
      ("Error: Command blocked by safety guard (dangerous pattern detected)", false) ∧
    exec_command shellEcho "echo hello" 60 = ("hello", true) :=
  ⟨exec_safety_guard.1 shellEcho "rm -rf /" 60 (by decide),
   (exec_safety_guard.2.2.2 shellEcho 60 rfl).1⟩

/-- C2: with the file present, two or more occurrences of old_text leave
the filesystem untouched and return a warning containing the count; zero
occurrences return the not-found error without writing; exactly one
occurrence replaces it, persists, and returns the success message. -/
theorem edit_file_occurrence_contract (fs : FS) (p old new stored : String)
    (hf : fs p = some (Node.file stored)) :
    (pyCount (univNl stored) old ≥ 2 →
       (edit_file fs p old new).1 = fs ∧
       (edit_file fs p old new).2 =
         "Warning: old_text appears " ++ Nat.repr (pyCount (univNl stored) old) ++
           " times. Please provide more context to make it unique." ∧
       (Nat.repr (pyCount (univNl stored) old)).data <:+: (edit_file fs p old new).2.data) ∧
    (pyCount (univNl stored) old = 0 →
       (edit_file fs p old new).1 = fs ∧
       (edit_file fs p old new).2 =
         "Error: old_text not found in file. Make sure it matches exactly.") ∧
    (pyCount (univNl stored) old = 1 →
       (edit_file fs p old new).1 =
         fsUpdate fs p (Node.file (pyReplace1 (univNl stored) old new)) ∧
       (edit_file fs p old new).2 = "Successfully edited " ++ p) := by
  have hred : edit_file fs p old new =
      (if pyCount (univNl stored) old = 0 then
        (fs, "Error: old_text not found in file. Make sure it matches exactly.")
      else if pyCount (univNl stored) old > 1 then
        (fs, "Warning: old_text appears " ++ Nat.repr (pyCount (univNl stored) old) ++
             " times. Please provide more context to make it unique.")
      else
        (fsUpdate fs p (Node.file (pyReplace1 (univNl stored) old new)),
         "Successfully edited " ++ p)) := by
    simp [edit_file, hf]
  refine ⟨?_, ?_, ?_⟩
  · intro h2
    rw [hred, if_neg (by omega), if_pos (by omega)]
    exact ⟨rfl, rfl, ⟨"Warning: old_text appears ".data,
      " times. Please provide more context to make it unique.".data, by
        simp [String.data_append, List.append_assoc]⟩⟩
  · intro h0
    rw [hred, if_pos h0]
    exact ⟨rfl, rfl⟩
  · intro h1
    rw [hred, if_neg (by omega), if_neg (by omega)]
    exact ⟨rfl, rfl⟩

theorem edit_file_occurrence_contract_witness :
    (edit_file fsAB "f" "ab" "X").1 = fsAB ∧
    "2".data <:+: (edit_file fsAB "f" "ab" "X").2.data := by
  have h := (edit_file_occurrence_contract fsAB "f" "ab" "X" "abab" rfl).1 (by decide)
  exact ⟨h.1, h.2.2⟩

/-- C4 counterexample: a write followed by a read does not return the
content unchanged when it contains a carriage return — text-mode reading
applies universal-newline translation. -/
theorem write_read_roundtrip_cex :
    read_file (write_file emptyFS "f" "x\ry").1 "f" ≠ "x\ry" := by decide

/-- C4 (amended): for a path that is not an existing directory and content
free of carriage returns, write_file followed by read_file returns exactly
the content. -/
theorem write_read_roundtrip (fs : FS) (p c : String)
    (hdir : fs p ≠ some Node.dir) (hcr : ∀ ch ∈ c.data, ch ≠ '\r') :
    read_file (write_file fs p c).1 p = c := by
  cases hfp : fs p with
  | none => simp [write_file, hfp, read_file, fsUpdate, univNl_eq_self c hcr]
  | some n =>
    cases n with
    | file s => simp [write_file, hfp, read_file, fsUpdate, univNl_eq_self c hcr]
    | dir => exact absurd hfp hdir

theorem write_read_roundtrip_witness :
    read_file (write_file emptyFS "g" "hello").1 "g" = "hello" :=
  write_read_roundtrip emptyFS "g" "hello" (by decide) (by decide)

/-- C5 counterexample: with a workspace skill named "foo", the argument
" foo" is neither empty/whitespace-only nor an exact case-sensitive match
of any listed skill name, yet read_skill succeeds (the code looks up the
stripped name). -/
theorem read_skill_exact_match_cex :
    pyStrip " foo" ≠ "" ∧
    (∀ i ∈ list_skills ws0 bi0, i.name ≠ " foo") ∧
    read_skill ws0 bi0 " foo" = Except.ok "hello" := by
  exact ⟨by decide, by decide, rfl⟩

/-- C5 (amended): read_skill fails with a raised error exactly when the
stripped name is empty or no listed skill's name equals the stripped name;
otherwise it returns the manifest text of the first skill whose name
equals the stripped name. -/
theorem read_skill_strip_lookup (ws bi : SkillsRoot) (name : String) :
    ((∃ e, read_skill ws bi name = Except.error e) ↔
      (pyStrip name = "" ∨ ∀ i ∈ list_skills ws bi, i.name ≠ pyStrip name)) ∧
    (∀ info, pyStrip name ≠ "" →
      (list_skills ws bi).find? (fun i => i.name == pyStrip name) = some info →
      read_skill ws bi name = Except.ok info.content) := by
  by_cases hk : pyStrip name = ""
  · refine ⟨⟨fun _ => Or.inl hk, fun _ => ⟨"Skill name cannot be empty.", by simp [read_skill, hk]⟩⟩,
      fun info hne _ => absurd hk hne⟩
  · cases hf : (list_skills ws bi).find? (fun i => i.name == pyStrip name) with
    | none =>
      have hall : ∀ i ∈ list_skills ws bi, i.name ≠ pyStrip name := by
        intro i hi he
        have hpi := List.find?_eq_none.mp hf i hi
        simp [he] at hpi
      refine ⟨⟨fun _ => Or.inr hall,
        fun _ => ⟨"Skill '" ++ pyStrip name ++ "' not found.", by simp [read_skill, hk, hf]⟩⟩,
        ?_⟩
      intro info _ hsome
      exact Option.noConfusion hsome
    | some info =>
      have hok : read_skill ws bi name = Except.ok info.content := by
        simp [read_skill, hk, hf]
      refine ⟨⟨?_, ?_⟩, ?_⟩
      · rintro ⟨e, he⟩
        rw [hok] at he
        cases he
      · intro h
        rcases h with h | hall
        · exact absurd h hk
        · have hmem := List.mem_of_find?_eq_some hf
          have hpi := List.find?_some hf
          have hin : info.name = pyStrip name := by simpa using hpi
          exact absurd hin (hall info hmem)
      · intro info2 _ hsome
        cases hsome
        exact hok

theorem read_skill_strip_lookup_witness :
    read_skill ws0 bi0 "foo" = Except.ok "hello" :=
  (read_skill_strip_lookup ws0 bi0 "foo").2
    ⟨"foo", "/ws/foo/SKILL.md", "workspace", "foo", "hello"⟩ (by decide) (by decide)

/-- C6 counterexample: when the underlying filesystem append fails, the
message tool does not return a value — the exception propagates (the
source has no try/except around the outbox write). -/
theorem message_never_raises_cex :
    ¬ ∃ s, message "ws" [] (Except.error "disk full") "T" "x" "local" "default" =
      Except.ok s := by
  rintro ⟨s, hs⟩
  exact Except.noConfusion hs

/-- C6 (amended): message returns the recorded-to string and appends one
JSON line when the filesystem append succeeds, and propagates the raised
exception unchanged when it fails. -/
theorem message_outcome_contract (wsRoot : String) (log : List String)
    (ts content channel chat_id : String) :
    message wsRoot log (Except.ok ()) ts content channel chat_id =
      Except.ok (log ++ [outboxLine ts channel chat_id content],
                 "Message recorded to " ++ outboxPath wsRoot) ∧
    ∀ e, message wsRoot log (Except.error e) ts content channel chat_id =
      Except.error e :=
  ⟨rfl, fun _ => rfl⟩

/-- C7: removing a job id that matches no stored job reports not-found and
leaves the store file untouched; removing a present id persists the list
filtered of that id, which under unique ids is the previous list with that
one job removed. -/
theorem cron_remove_contract (store : CronStore) (ts fid m : String)
    (es : Option Int) (ce at_a : Option String) (jid : String) (hjid : jid ≠ "") :
    ((∀ j ∈ _load_cron_jobs store, j.id ≠ jid) →
      cron store ts fid "remove" m es ce at_a (some jid) =
        (store, "Job " ++ jid ++ " not found")) ∧
    (∀ j, j ∈ _load_cron_jobs store → j.id = jid →
      (cron store ts fid "remove" m es ce at_a (some jid)).1 =
        CronStore.stored ((_load_cron_jobs store).filter (fun x => !(x.id == jid))) ∧
      (cron store ts fid "remove" m es ce at_a (some jid)).2 = "Removed job " ++ jid) ∧
    (∀ j, j ∈ _load_cron_jobs store → j.id = jid →
      ((_load_cron_jobs store).map CronJob.id).Nodup →
      (_load_cron_jobs store).filter (fun x => !(x.id == jid)) =
        (_load_cron_jobs store).erase j) := by
  have hred : cron store ts fid "remove" m es ce at_a (some jid) =
      (if ((_load_cron_jobs store).filter (fun x => !(x.id == jid))).length =
          (_load_cron_jobs store).length
       then (store, "Job " ++ jid ++ " not found")
       else (CronStore.stored ((_load_cron_jobs store).filter (fun x => !(x.id == jid))),
             "Removed job " ++ jid)) := by
    simp [cron, truthyStr, hjid]
  refine ⟨?_, ?_, ?_⟩
  · intro hall
    have hfil : (_load_cron_jobs store).filter (fun x => !(x.id == jid)) =
        _load_cron_jobs store :=
      List.filter_eq_self.mpr (fun j hj => by simp [hall j hj])
    rw [hred, if_pos (by rw [hfil])]
  · intro j hj hid
    have hlt : ((_load_cron_jobs store).filter (fun x => !(x.id == jid))).length <
        (_load_cron_jobs store).length :=
      List.length_filter_lt_length_iff_exists.mpr ⟨j, hj, by simp [hid]⟩
    rw [hred, if_neg (by omega)]
    exact ⟨rfl, rfl⟩
  · intro j hj hid hnd
    exact filter_ne_eq_erase j jid hid _ hj hnd

theorem cron_remove_contract_witness :
    cron store1 "T" "F" "remove" "" none none none (some "zz") =
      (store1, "Job zz not found") ∧
    (cron store1 "T" "F" "remove" "" none none none (some "a1")).1 =
      CronStore.stored [] := by
  refine ⟨(cron_remove_contract store1 "T" "F" "" none none none "zz" (by decide)).1
      (by decide), ?_⟩
  have h := ((cron_remove_contract store1 "T" "F" "" none none none "a1" (by decide)).2.1
    ⟨"a1", "n", "m", "s", "t"⟩ (by decide) rfl).1
  rw [h]
  decide

/-- C8 counterexample: write_file interpolates len(content), the code-point
count, so for "é" the message says 1 and nowhere contains the UTF-8 byte
count 2. -/
theorem write_file_byte_count_cex :
    utf8Len "é" = 2 ∧
    (write_file emptyFS "f" "é").2 = "Successfully wrote 1 bytes to f" ∧
    ¬ ("2".data <:+: (write_file emptyFS "f" "é").2.data) :=
  ⟨by decide, by decide, by decide⟩

/-- C8 (amended): a successful write_file reports the code-point count of
the content (equal to the UTF-8 byte count only when every character is
ASCII) together with the destination path. -/
theorem write_file_message_contract (fs : FS) (p c : String)
    (hdir : fs p ≠ some Node.dir) :
    (write_file fs p c).2 =
      "Successfully wrote " ++ Nat.repr c.length ++ " bytes to " ++ p ∧
    (Nat.repr c.length).data <:+: (write_file fs p c).2.data ∧
    p.data <:+: (write_file fs p c).2.data ∧
    ((∀ ch ∈ c.data, ch.toNat < 128) → utf8Len c = c.length) := by
  have hmsg : (write_file fs p c).2 =
      "Successfully wrote " ++ Nat.repr c.length ++ " bytes to " ++ p := by
    cases hfp : fs p with
    | none => simp [write_file, hfp]
    | some n =>
      cases n with
      | file s => simp [write_file, hfp]
      | dir => exact absurd hfp hdir
  refine ⟨hmsg, ?_, ?_, ?_⟩
  · rw [hmsg]
    exact ⟨"Successfully wrote ".data, (" bytes to " ++ p).data, by
      simp [String.data_append, List.append_assoc]⟩
  · rw [hmsg]
    exact ⟨("Successfully wrote " ++ Nat.repr c.length ++ " bytes to ").data, [], by
      simp [String.data_append, List.append_assoc]⟩
  · intro hascii
    unfold utf8Len
    rw [utf8Len_ascii_chars c.data hascii]
    rfl

theorem write_file_message_contract_witness :
    (write_file emptyFS "p" "hi").2 = "Successfully wrote 2 bytes to p" := by
  have h := (write_file_message_contract emptyFS "p" "hi" (by decide)).1
  rw [h]
  decide

/-- C9: the escaping used by build_summary replaces exactly the ampersand,
less-than and greater-than characters with their entities and leaves every
other character (quotes included) unchanged. -/
theorem xml_escape_exact (s : String) : _xml_escape s = xmlEscapeSpec s := by
  have e1 : pyReplaceAll s "&" "&amp;" =
      String.mk (s.data.flatMap (fun d => if '&' = d then "&amp;".data else [d])) :=
    congrArg String.mk (replaceFromF_single '&' "&amp;".data s.data s.data.length (le_refl _))
  have e2 : ∀ t : String, pyReplaceAll t "<" "&lt;" =
      String.mk (t.data.flatMap (fun d => if '<' = d then "&lt;".data else [d])) :=
    fun t =>
      congrArg String.mk (replaceFromF_single '<' "&lt;".data t.data t.data.length (le_refl _))
  have e3 : ∀ t : String, pyReplaceAll t ">" "&gt;" =
      String.mk (t.data.flatMap (fun d => if '>' = d then "&gt;".data else [d])) :=
    fun t =>
      congrArg String.mk (replaceFromF_single '>' "&gt;".data t.data t.data.length (le_refl _))
  unfold _xml_escape
  rw [e1, e2, e3]
  unfold xmlEscapeSpec
  refine congrArg String.mk ?_
  show ((s.data.flatMap (fun d => if '&' = d then "&amp;".data else [d])).flatMap
          (fun d => if '<' = d then "&lt;".data else [d])).flatMap
        (fun d => if '>' = d then "&gt;".data else [d]) = s.data.flatMap xmlEscChar
  rw [flatMap_flatMap, flatMap_flatMap]
  exact congrArg (List.flatMap s.data) (funext xmlEscChar_decomp)

/-- C10: with a non-empty message, a schedule argument that is supplied but
falsy (zero seconds, empty cron expression, empty at) is treated as absent:
cron add reports the missing-schedule error and creates nothing. -/
theorem cron_add_truthiness (store : CronStore) (ts fid m : String) (hm : m ≠ "") :
    cron store ts fid "add" m (some 0) none none none =
      (store, "Error: either every_seconds, cron_expr, or at is required") ∧
    cron store ts fid "add" m none (some "") none none =
      (store, "Error: either every_seconds, cron_expr, or at is required") ∧
    cron store ts fid "add" m none none (some "") none =
      (store, "Error: either every_seconds, cron_expr, or at is required") := by
  refine ⟨?_, ?_, ?_⟩ <;> simp [cron, truthyInt, truthyStr, hm]

theorem cron_add_truthiness_witness :
    cron CronStore.absent "T" "F" "add" "hi" (some 0) none none none =
      (CronStore.absent, "Error: either every_seconds, cron_expr, or at is required") :=
  (cron_add_truthiness CronStore.absent "T" "F" "hi" (by decide)).1

/-! ## Skill-registry dictionary lemmas (merge precedence) -/

theorem scanEntry_fields (rootPath source : String) (e : DirEntry) (i : SkillInfo)
    (h : scanEntry rootPath source e = some i) : i.name = e.name ∧ i.source = source := by
  unfold scanEntry at h
  by_cases hd : e.isDir = true
  · rw [if_pos hd] at h
    cases hm : e.manifest with
    | none => rw [hm] at h; cases h
    | some m =>
      rw [hm] at h
      cases h
      exact ⟨rfl, rfl⟩
  · rw [if_neg hd] at h; cases h

theorem scanEntry_valid (rootPath source : String) (e : DirEntry)
    (hd : e.isDir = true) (m : String) (hm : e.manifest = some m) :
    ∃ i, scanEntry rootPath source e = some i ∧ i.name = e.name ∧ i.source = source := by
  refine ⟨{ name := e.name, path := rootPath ++ "/" ++ e.name ++ "/SKILL.md",
            source := source,
            description := match _extract_description m with
              | some dsc => if dsc = "" then e.name else dsc
              | none => e.name,
            content := m }, ?_, rfl, rfl⟩
  unfold scanEntry
  rw [if_pos hd, hm]

theorem _scan_source (rootPath : String) (entries : List DirEntry) (source : String) :
    ∀ i ∈ _scan rootPath entries source, i.source = source := by
  intro i hi
  obtain ⟨e, _, hfe⟩ := List.mem_filterMap.mp hi
  exact (scanEntry_fields rootPath source e i hfe).2

theorem _scan_of_valid (rootPath : String) (entries : List DirEntry) (source : String)
    (e : DirEntry) (he : e ∈ entries) (hd : e.isDir = true) (m : String)
    (hm : e.manifest = some m) :
    ∃ i ∈ _scan rootPath entries source, i.name = e.name := by
  obtain ⟨i, hfe, hn, _⟩ := scanEntry_valid rootPath source e hd m hm
  exact ⟨i, List.mem_filterMap.mpr ⟨e, he, hfe⟩, hn⟩

theorem dictKeys_map_replace (d : Dict) (k : String) (v : SkillInfo) :
    dictKeys (d.map (fun kv => if kv.1 = k then (k, v) else kv)) = dictKeys d := by
  unfold dictKeys
  rw [List.map_map]
  apply List.map_congr_left
  intro kv _
  by_cases h : kv.1 = k
  · simp [h]
  · simp [h]

theorem dictKeys_set (d : Dict) (k : String) (v : SkillInfo) :
    dictKeys (dictSet d k v) = if k ∈ dictKeys d then dictKeys d else dictKeys d ++ [k] := by
  unfold dictSet
  by_cases h : k ∈ dictKeys d
  · rw [if_pos h, if_pos h, dictKeys_map_replace]
  · rw [if_neg h, if_neg h]
    simp [dictKeys]

theorem dictSet_nodup (d : Dict) (k : String) (v : SkillInfo)
    (h : (dictKeys d).Nodup) : (dictKeys (dictSet d k v)).Nodup := by
  rw [dictKeys_set]
  by_cases hk : k ∈ dictKeys d
  · rwa [if_pos hk]
  · rw [if_neg hk]
    exact ((List.perm_append_singleton k (dictKeys d)).nodup_iff).mpr
      (List.nodup_cons.mpr ⟨hk, h⟩)

theorem mem_dictKeys_set_self (d : Dict) (k : String) (v : SkillInfo) :
    k ∈ dictKeys (dictSet d k v) := by
  rw [dictKeys_set]
  by_cases hk : k ∈ dictKeys d
  · rwa [if_pos hk]
  · rw [if_neg hk]; simp

theorem mem_dictKeys_set_mono (d : Dict) (k : String) (v : SkillInfo) (n : String)
    (h : n ∈ dictKeys d) : n ∈ dictKeys (dictSet d k v) := by
  rw [dictKeys_set]
  by_cases hk : k ∈ dictKeys d
  · rwa [if_pos hk]
  · rw [if_neg hk]; exact List.mem_append_left _ h

theorem dictSet_pairs (d : Dict) (k : String) (v : SkillInfo)
    (P : String × SkillInfo → Prop) (hd : ∀ kv ∈ d, P kv) (hkv : P (k, v)) :
    ∀ kv ∈ dictSet d k v, P kv := by
  unfold dictSet
  by_cases h : k ∈ dictKeys d
  · rw [if_pos h]
    intro kv hm
    obtain ⟨orig, ho, he⟩ := List.mem_map.mp hm
    by_cases hok : orig.1 = k
    · rw [if_pos hok] at he
      exact he ▸ hkv
    · rw [if_neg hok] at he
      exact he ▸ hd orig ho
  · rw [if_neg h]
    intro kv hm
    rcases List.mem_append.mp hm with hm1 | hm2
    · exact hd kv hm1
    · have hkv2 : kv = (k, v) := by simpa using hm2
      exact hkv2 ▸ hkv

theorem wsFold_good (infos : List SkillInfo) :
    ∀ d : Dict, (dictKeys d).Nodup →
      (∀ kv ∈ d, kv.2.name = kv.1 ∧ kv.2.source = "workspace") →
      (∀ i ∈ infos, i.source = "workspace") →
      (dictKeys (infos.foldl (fun d i => dictSet d i.name i) d)).Nodup ∧
      ∀ kv ∈ infos.foldl (fun d i => dictSet d i.name i) d,
        kv.2.name = kv.1 ∧ kv.2.source = "workspace" := by
  induction infos with
  | nil => intro d h1 h2 _; exact ⟨h1, h2⟩
  | cons i rest ih =>
    intro d h1 h2 h3
    rw [List.foldl_cons]
    exact ih (dictSet d i.name i) (dictSet_nodup d i.name i h1)
      (dictSet_pairs d i.name i _ h2 ⟨rfl, h3 i (List.mem_cons_self i rest)⟩)
      (fun j hj => h3 j (List.mem_cons_of_mem i hj))

theorem wsFold_mem (infos : List SkillInfo) (n : String) :
    ∀ d : Dict, (n ∈ dictKeys d ∨ ∃ i ∈ infos, i.name = n) →
      n ∈ dictKeys (infos.foldl (fun d i => dictSet d i.name i) d) := by
  induction infos with
  | nil =>
    intro d h
    rcases h with h | ⟨i, hi, _⟩
    · exact h
    · cases hi
  | cons i rest ih =>
    intro d h
    rw [List.foldl_cons]
    apply ih
    rcases h with h | ⟨j, hj, hn⟩
    · exact Or.inl (mem_dictKeys_set_mono d i.name i n h)
    · rcases List.mem_cons.mp hj with heq | hj2
      · subst heq
        exact Or.inl (hn ▸ mem_dictKeys_set_self d j.name j)
      · exact Or.inr ⟨j, hj2, hn⟩

theorem biFold_keeps (infos : List SkillInfo) :
    ∀ d : Dict, ∀ kv ∈ d,
      kv ∈ infos.foldl
        (fun d i => if i.name ∈ dictKeys d then d else d ++ [(i.name, i)]) d := by
  induction infos with
  | nil => intro d kv h; exact h
  | cons i rest ih =>
    intro d kv h
    rw [List.foldl_cons]
    apply ih
    by_cases hk : i.name ∈ dictKeys d
    · rwa [if_pos hk]
    · rw [if_neg hk]; exact List.mem_append_left _ h

theorem biFold_nodup (infos : List SkillInfo) :
    ∀ d : Dict, (dictKeys d).Nodup →
      (dictKeys (infos.foldl
        (fun d i => if i.name ∈ dictKeys d then d else d ++ [(i.name, i)]) d)).Nodup := by
  induction infos with
  | nil => intro d h; exact h
  | cons i rest ih =>
    intro d h
    rw [List.foldl_cons]
    apply ih
    by_cases hk : i.name ∈ dictKeys d
    · rwa [if_pos hk]
    · rw [if_neg hk]
      have hkeys : dictKeys (d ++ [(i.name, i)]) = dictKeys d ++ [i.name] := by
        simp [dictKeys]
      rw [hkeys]
      exact ((List.perm_append_singleton i.name (dictKeys d)).nodup_iff).mpr
        (List.nodup_cons.mpr ⟨hk, h⟩)

theorem biFold_names (infos : List SkillInfo) :
    ∀ d : Dict, (∀ kv ∈ d, kv.2.name = kv.1) →
      ∀ kv ∈ infos.foldl
        (fun d i => if i.name ∈ dictKeys d then d else d ++ [(i.name, i)]) d,
        kv.2.name = kv.1 := by
  induction infos with
  | nil => intro d h; exact h
  | cons i rest ih =>
    intro d h
    rw [List.foldl_cons]
    apply ih
    by_cases hk : i.name ∈ dictKeys d
    · rwa [if_pos hk]
    · rw [if_neg hk]
      intro kv hm
      rcases List.mem_append.mp hm with hm1 | hm2
      · exact h kv hm1
      · have hkv2 : kv = (i.name, i) := by simpa using hm2
        rw [hkv2]

theorem dict_unique_value :
    ∀ d : Dict, (dictKeys d).Nodup → ∀ k a b, (k, a) ∈ d → (k, b) ∈ d → a = b := by
  intro d
  induction d with
  | nil => intro _ k a b h1 _; cases h1
  | cons kv rest ih =>
    intro hnd k a b h1 h2
    have hh : kv.1 ∉ dictKeys rest := by
      have h0 : (dictKeys (kv :: rest)).Nodup := hnd
      unfold dictKeys at h0
      rw [List.map_cons] at h0
      exact (List.nodup_cons.mp h0).1
    have hnd2 : (dictKeys rest).Nodup := by
      have h0 : (dictKeys (kv :: rest)).Nodup := hnd
      unfold dictKeys at h0
      rw [List.map_cons] at h0
      exact (List.nodup_cons.mp h0).2
    rcases List.mem_cons.mp h1 with e1 | m1 <;> rcases List.mem_cons.mp h2 with e2 | m2
    · exact congrArg Prod.snd (e1.trans e2.symm)
    · exfalso
      apply hh
      have hk : kv.1 = k := by rw [← e1]
      rw [hk]
      exact List.mem_map.mpr ⟨(k, b), m2, rfl⟩
    · exfalso
      apply hh
      have hk : kv.1 = k := by rw [← e2]
      rw [hk]
      exact List.mem_map.mpr ⟨(k, a), m1, rfl⟩
    · exact ih hnd2 k a b m1 m2

theorem mem_dictKeys_exists (d : Dict) (n : String) (h : n ∈ dictKeys d) :
    ∃ v, (n, v) ∈ d := by
  obtain ⟨kv, hm, he⟩ := List.mem_map.mp h
  cases kv with
  | mk k v =>
    have hk : k = n := he
    subst hk
    exact ⟨v, hm⟩

theorem countP_eq_one_of_nodup (n : String) :
    ∀ l : List String, l.Nodup → n ∈ l → List.countP (fun k => k == n) l = 1 := by
  intro l
  induction l with
  | nil => intro _ hm; cases hm
  | cons a rest ih =>
    intro hnd hm
    have ha : a ∉ rest := (List.nodup_cons.mp hnd).1
    have hnd2 := (List.nodup_cons.mp hnd).2
    rcases List.mem_cons.mp hm with heq | hmem
    · subst heq
      rw [List.countP_cons_of_pos (fun k => k == n) rest (by simp)]
      have hzero : List.countP (fun k => k == n) rest = 0 := by
        rw [List.countP_eq_zero]
        intro x hx
        simp only [beq_iff_eq]
        exact fun he => ha (he ▸ hx)
      rw [hzero]
    · have hna : ¬((fun k => k == n) a = true) := by
        simp only [beq_iff_eq]
        exact fun he => ha (he ▸ hmem)
      rw [List.countP_cons_of_neg (fun k => k == n) rest hna]
      exact ih hnd2 hmem

theorem insertByKey_perm (x : SkillInfo) (l : List SkillInfo) :
    List.Perm (insertByKey x l) (x :: l) := by
  induction l with
  | nil => exact List.Perm.refl _
  | cons y ys ih =>
    unfold insertByKey
    by_cases h : (skillLe y x && !skillLe x y) = true
    · rw [if_pos h]
      exact (ih.cons y).trans (List.Perm.swap x y ys)
    · rw [if_neg h]

theorem sortSkills_perm (l : List SkillInfo) : List.Perm (sortSkills l) l := by
  induction l with
  | nil => exact List.Perm.refl _
  | cons a l ih =>
    unfold sortSkills
    rw [List.foldr_cons]
    exact (insertByKey_perm a _).trans (ih.cons a)

theorem merged_dict_spec (W B : List SkillInfo)
    (hWsrc : ∀ i ∈ W, i.source = "workspace") (n : String)
    (hn : ∃ i ∈ W, i.name = n) :
    List.countP (fun i => i.name == n) ((mergedDict W B).map Prod.snd) = 1 ∧
    ∀ i ∈ (mergedDict W B).map Prod.snd, i.name = n → i.source = "workspace" := by
  have hgood := wsFold_good W [] List.nodup_nil
    (fun kv h => absurd h (List.not_mem_nil kv)) hWsrc
  obtain ⟨iw, hiw, hiwn⟩ := hn
  have hd1mem : n ∈ dictKeys (wsDict W) :=
    wsFold_mem W n [] (Or.inr ⟨iw, hiw, hiwn⟩)
  obtain ⟨v, hv⟩ := mem_dictKeys_exists (wsDict W) n hd1mem
  have hvsrc : v.source = "workspace" := (hgood.2 (n, v) hv).2
  have hd2nodup : (dictKeys (mergedDict W B)).Nodup := biFold_nodup B (wsDict W) hgood.1
  have hd2names : ∀ kv ∈ mergedDict W B, kv.2.name = kv.1 :=
    biFold_names B (wsDict W) (fun kv h => (hgood.2 kv h).1)
  have hv2 : (n, v) ∈ mergedDict W B := biFold_keeps B (wsDict W) (n, v) hv
  have hd2mem : n ∈ dictKeys (mergedDict W B) := List.mem_map.mpr ⟨(n, v), hv2, rfl⟩
  constructor
  · rw [List.countP_map]
    have h1 : List.countP ((fun i => i.name == n) ∘ Prod.snd) (mergedDict W B) =
        List.countP ((fun k => k == n) ∘ Prod.fst) (mergedDict W B) := by
      apply List.countP_congr
      intro kv hkv
      simp [Function.comp, hd2names kv hkv]
    rw [h1, ← List.countP_map]
    exact countP_eq_one_of_nodup n (dictKeys (mergedDict W B)) hd2nodup hd2mem
  · intro i hi hin
    obtain ⟨kv, hkv, hsnd⟩ := List.mem_map.mp hi
    have hk1 : kv.1 = n := by rw [← hd2names kv hkv, hsnd]; exact hin
    have hkv2 : (n, i) ∈ mergedDict W B := by
      have hpair : kv = (n, i) := by
        cases kv with
        | mk a b =>
          have hb : b = i := hsnd
          have ha2 : a = n := hk1
          rw [hb, ha2]
      rw [← hpair]
      exact hkv
    have hiv : i = v := dict_unique_value (mergedDict W B) hd2nodup n i v hkv2 hv2
    rw [hiv]
    exact hvsrc

/-- C3: a skill name present as a valid bundle (a subdirectory containing a
SKILL.md file) in both the workspace root and the builtin root yields
exactly one SkillInfo in list_skills, and its source is workspace. -/
theorem skills_merge_precedence (ws bi : SkillsRoot) (n : String)
    (hw : ∃ e ∈ ws.entries, e.name = n ∧ e.isDir = true ∧ e.manifest ≠ none)
    (hb : ∃ e ∈ bi.entries, e.name = n ∧ e.isDir = true ∧ e.manifest ≠ none) :
    List.countP (fun i => i.name == n) (list_skills ws bi) = 1 ∧
    ∀ i ∈ list_skills ws bi, i.name = n → i.source = "workspace" := by
  obtain ⟨e, he, hen, hed, hem⟩ := hw
  obtain ⟨m, hm⟩ : ∃ m', e.manifest = some m' := by
    cases hme : e.manifest with
    | none => exact absurd hme hem
    | some m' => exact ⟨m', rfl⟩
  obtain ⟨iw, hiw, hiwn⟩ := _scan_of_valid ws.path ws.entries "workspace" e he hed m hm
  have key := merged_dict_spec (_scan ws.path ws.entries "workspace")
    (_scan bi.path bi.entries "builtin")
    (_scan_source ws.path ws.entries "workspace") n ⟨iw, hiw, hiwn.trans hen⟩
  have hperm : List.Perm (list_skills ws bi)
      ((mergedDict (_scan ws.path ws.entries "workspace")
        (_scan bi.path bi.entries "builtin")).map Prod.snd) := sortSkills_perm _
  constructor
  · rw [List.Perm.countP_eq _ hperm]
    exact key.1
  · intro i hi hin
    exact key.2 i (hperm.mem_iff.mp hi) hin

theorem skills_merge_precedence_witness :
    List.countP (fun i => i.name == "dup") (list_skills wsB biB) = 1 ∧
    ∀ i ∈ list_skills wsB biB, i.name = "dup" → i.source = "workspace" :=
  skills_merge_precedence wsB biB "dup" (by decide) (by decide)

end Picobot
